import Mathlib

/-!
Verification of the `dipolar-fibrils` notebooks.

The notebook code is embedded shallowly: numpy 3-vectors become elements of
`EuclideanSpace ℝ (Fin 3)` (so `np.linalg.norm` is the Euclidean norm and machine
floats are idealized as real numbers), the module-level parameters read by the
generator functions become an explicit `Config`, the mutable global list
`global_position_storage` becomes explicit state threaded through each function,
and a Python exception (assert failure) becomes an `Except.error` result paired
with the storage state, since the global list keeps its entries when an exception
propagates.
-/

namespace DipolarFibrils

/-- Numpy 3-vectors of the notebook, with `np.linalg.norm` as the Euclidean norm. -/
abbrev Vec3 : Type := EuclideanSpace ℝ (Fin 3)

/-- One entry of `global_position_storage`: the deep-copied `[pos, charge, radius]`. -/
abbrev StorageEntry : Type := Vec3 × ℝ × ℝ

/-- The variable data of one PQR `ATOM` line produced by `makeAtomEntry`
(the remaining fields of the fixed-width line are constants). -/
structure AtomRecord where
  index : ℕ
  pos : Vec3
  charge : ℝ
  radius : ℝ

/-- The module-level parameters set in the notebook's configuration cell and read
by the generator functions. -/
structure Config where
  radius : ℝ
  charge : ℝ
  dipole_scalar : ℝ
  fictitious_charge : ℝ

/-- The concrete notebook values: `radius = 15`, `charge = 2`, `dipole_scalar = 150`,
`fictitious_charge = 10.0`. -/
def notebookConfig : Config := ⟨15, 2, 150, 10⟩

/-- `debye_to_electron_angstrom = 0.2081943`. -/
def debye_to_electron_angstrom : ℝ := 0.2081943

/-- `bjerrum_length = 7 * 80` from `calcPotential`. -/
def bjerrum_length : ℝ := 7 * 80

/-- `to_debye = 1.0 / 0.2081943` from the evaporation notebook. -/
noncomputable def to_debye : ℝ := 1 / 0.2081943

/-- `v / np.linalg.norm(v)`: normalization as performed inside the notebook functions. -/
noncomputable def normalize (v : Vec3) : Vec3 := ‖v‖⁻¹ • v

/-- `makeAtomEntry(counter, pos, charge, radius)`: appends a deep copy of
`[pos, charge, radius]` to the global storage and returns the ATOM record
(in the source, a formatted PQR line carrying exactly these data). -/
def makeAtomEntry (counter : ℕ) (pos : Vec3) (charge radius : ℝ)
    (storage : List StorageEntry) : AtomRecord × List StorageEntry :=
  (⟨counter, pos, charge, radius⟩, storage ++ [(pos, charge, radius)])

/-- The auxiliary-charge displacement computed in `makeDipoleEntry`:
`debye_to_electron_angstrom * dipole_scalar * normalized_direction / (2.0 * fictitious_charge)`. -/
noncomputable def dipoleDisplacement (cfg : Config) (dipole_direction : Vec3) : Vec3 :=
  ((debye_to_electron_angstrom * cfg.dipole_scalar) / (2 * cfg.fictitious_charge)) •
    normalize dipole_direction

/-- The reconstructed dipole checked in `makeDipoleEntry`:
`(position + displacement) * fictitious_charge + (position - displacement) * (-fictitious_charge)`. -/
noncomputable def dipoleMu (cfg : Config) (position displacement : Vec3) : Vec3 :=
  cfg.fictitious_charge • (position + displacement) +
    (-cfg.fictitious_charge) • (position - displacement)

/-- `makeDipoleEntry(counter, position, dipole_direction)`: emits the neutral bead record,
then (after the `assert np.linalg.norm(displacement) < radius` passes) the two auxiliary
charge records, then runs `np.testing.assert_almost_equal` on the reconstructed dipole
magnitude (numpy default: pass iff `|actual - desired| < 1.5e-7`).  A failing assert is
the `Except.error` branch; the storage component always reflects the appends already
performed when the assert fires. -/
noncomputable def makeDipoleEntry (cfg : Config) (counter : ℕ)
    (position dipole_direction : Vec3) (storage : List StorageEntry) :
    Except String (List AtomRecord) × List StorageEntry :=
  let r0 := makeAtomEntry counter position cfg.charge cfg.radius storage
  let displacement := dipoleDisplacement cfg dipole_direction
  if ‖displacement‖ < cfg.radius then
    let r1 := makeAtomEntry (counter + 1) (position + displacement) cfg.fictitious_charge 1 r0.2
    let r2 := makeAtomEntry (counter + 2) (position - displacement) (-cfg.fictitious_charge) 1 r1.2
    if |‖dipoleMu cfg position displacement‖ -
        cfg.dipole_scalar * debye_to_electron_angstrom| < 1.5e-7 then
      (Except.ok [r0.1, r1.1, r2.1], r2.2)
    else
      (Except.error "arrays are not almost equal", r2.2)
  else
    (Except.error "increase fictitious_charge", r0.2)

/-- The per-bead advance of both fibril builders:
`displacement = 2.0 * radius * direction / np.linalg.norm(direction)`. -/
noncomputable def fibrilDisplacement (cfg : Config) (direction : Vec3) : Vec3 :=
  ‖direction‖⁻¹ • ((2 * cfg.radius) • direction)

/-- The loop of `makeMonopoleFibril`: emit an ATOM record at the cursor, then advance the
cursor.  Returns the emitted records, the final cursor value and the final storage. -/
def monopoleLoop (cfg : Config) (displacement : Vec3) :
    ℕ → ℕ → Vec3 → List StorageEntry → List AtomRecord × Vec3 × List StorageEntry
  | 0, _, pos, storage => ([], pos, storage)
  | n + 1, counter, pos, storage =>
    let r := makeAtomEntry counter pos cfg.charge cfg.radius storage
    let rest := monopoleLoop cfg displacement n (counter + 1) (pos + displacement) r.2
    (r.1 :: rest.1, rest.2.1, rest.2.2)

/-- `makeMonopoleFibril(number_of_proteins, initial_position, direction)`.
`position = initial_position[:]` takes a numpy view and `position += displacement`
updates that view in place, so the final cursor value (second component of the result)
is also the content of the caller's `initial_position` array after the call. -/
noncomputable def makeMonopoleFibril (cfg : Config) (number_of_proteins : ℕ)
    (initial_position direction : Vec3) (storage : List StorageEntry) :
    List AtomRecord × Vec3 × List StorageEntry :=
  monopoleLoop cfg (fibrilDisplacement cfg direction) number_of_proteins 1
    initial_position storage

/-- The loop of `makeDipoleFibril`: a failing assert inside `makeDipoleEntry` aborts the
loop (the Python exception propagates), keeping the storage mutations already made. -/
noncomputable def dipoleLoop (cfg : Config) (direction displacement : Vec3) :
    ℕ → ℕ → Vec3 → List StorageEntry → Except String (List AtomRecord) × List StorageEntry
  | 0, _, _, storage => (Except.ok [], storage)
  | n + 1, counter, pos, storage =>
    match makeDipoleEntry cfg counter pos direction storage with
    | (Except.error e, st) => (Except.error e, st)
    | (Except.ok recs, st) =>
      match dipoleLoop cfg direction displacement n (counter + 1) (pos + displacement) st with
      | (Except.error e, st') => (Except.error e, st')
      | (Except.ok rest, st') => (Except.ok (recs ++ rest), st')

/-- `makeDipoleFibril(number_of_proteins, initial_position, direction)`.
`position = deepcopy(initial_position)`, so the caller's array is left unchanged;
the loop body calls `makeDipoleEntry(counter + 1, position, direction)` with
`counter` running over `range(number_of_proteins)`. -/
noncomputable def makeDipoleFibril (cfg : Config) (number_of_proteins : ℕ)
    (initial_position direction : Vec3) (storage : List StorageEntry) :
    Except String (List AtomRecord) × List StorageEntry :=
  dipoleLoop cfg direction (fibrilDisplacement cfg direction) number_of_proteins 1
    initial_position storage

/-- `calcPotential(target_position)`: accumulates `point_charge / distance` over the
global storage, then scales once by the Bjerrum length. -/
noncomputable def calcPotential (storage : List StorageEntry) (target_position : Vec3) : ℝ :=
  bjerrum_length *
    storage.foldl (fun potential e => potential + e.2.1 / ‖target_position - e.1‖) 0

/-- One column sample of `systemDipoleMomentVector`: each loaded component is scaled by
`to_debye`, then the sample is divided by its Euclidean length. -/
noncomputable def unitSample (s : Vec3) : Vec3 := ‖(to_debye • s : Vec3)‖⁻¹ • (to_debye • s)

/-- `systemDipoleAlignment()`: per axis, the mean over all samples of the squared
component of the unit dipole vector. -/
noncomputable def systemDipoleAlignment (samples : List Vec3) : Fin 3 → ℝ := fun a =>
  (samples.map fun s => unitSample s a ^ 2).sum / samples.length

/-- A configuration whose `fictitious_charge` is too small for the requested
dipole/radius combination: the displacement length is `0.2081943 * 150 / 0.2 ≈ 156.1 > 15`. -/
def weakConfig : Config := ⟨15, 2, 150, 0.1⟩

/-- Content of the caller's `initial_position` array after `makeMonopoleFibril` returns:
`position = initial_position[:]` is a numpy view of the caller's array and
`position += displacement` updates it in place, so the caller observes the loop's
final cursor value. -/
noncomputable def monopoleCallerPositionAfter (cfg : Config) (n : ℕ)
    (initial_position direction : Vec3) (storage : List StorageEntry) : Vec3 :=
  (makeMonopoleFibril cfg n initial_position direction storage).2.1

/-- Content of the caller's `initial_position` array after `makeDipoleFibril` returns:
the builder works on `position = deepcopy(initial_position)` and never writes through
its argument, so the caller's array is unchanged. -/
def dipoleCallerPositionAfter (initial_position : Vec3) : Vec3 := initial_position

/-! ### Helper lemmas -/

lemma norm_normalize {v : Vec3} (hv : v ≠ 0) : ‖normalize v‖ = 1 := by
  rw [normalize, norm_smul, norm_inv, norm_norm,
    inv_mul_cancel₀ (norm_ne_zero_iff.mpr hv)]

lemma esingle_ne_zero (i : Fin 3) : (EuclideanSpace.single i (1 : ℝ) : Vec3) ≠ 0 := by
  intro h
  have h' := congrArg (fun v : Vec3 => v i) h
  simp [EuclideanSpace.single_apply] at h'

lemma dipoleMu_eq_smul (cfg : Config) (p d : Vec3) :
    dipoleMu cfg p d = (2 * cfg.fictitious_charge) • d := by
  rw [dipoleMu]
  module

lemma norm_dipoleDisplacement (cfg : Config) {d : Vec3} (hd : d ≠ 0) :
    ‖dipoleDisplacement cfg d‖ =
      |debye_to_electron_angstrom * cfg.dipole_scalar / (2 * cfg.fictitious_charge)| := by
  rw [dipoleDisplacement, norm_smul, Real.norm_eq_abs, norm_normalize hd, mul_one]

lemma norm_dipoleMu (cfg : Config) (p : Vec3) {d : Vec3} (hd : d ≠ 0)
    (hq : cfg.fictitious_charge ≠ 0) (hm : 0 ≤ cfg.dipole_scalar) :
    ‖dipoleMu cfg p (dipoleDisplacement cfg d)‖ =
      cfg.dipole_scalar * debye_to_electron_angstrom := by
  rw [dipoleMu_eq_smul, dipoleDisplacement, smul_smul]
  have h2 : 2 * cfg.fictitious_charge *
      (debye_to_electron_angstrom * cfg.dipole_scalar / (2 * cfg.fictitious_charge)) =
      cfg.dipole_scalar * debye_to_electron_angstrom := by
    field_simp
    ring
  rw [h2, norm_smul, Real.norm_eq_abs, norm_normalize hd, mul_one, abs_of_nonneg]
  exact mul_nonneg hm (by rw [debye_to_electron_angstrom]; norm_num)

lemma fibrilDisplacement_eq (cfg : Config) (d : Vec3) :
    fibrilDisplacement cfg d = (2 * cfg.radius) • normalize d := by
  rw [fibrilDisplacement, normalize, smul_comm]

lemma makeDipoleEntry_ok (cfg : Config) (counter : ℕ) (p : Vec3) {d : Vec3}
    (hd : d ≠ 0) (hq : cfg.fictitious_charge ≠ 0) (hm : 0 ≤ cfg.dipole_scalar)
    (hr : ‖dipoleDisplacement cfg d‖ < cfg.radius) (storage : List StorageEntry) :
    makeDipoleEntry cfg counter p d storage =
      (Except.ok [⟨counter, p, cfg.charge, cfg.radius⟩,
          ⟨counter + 1, p + dipoleDisplacement cfg d, cfg.fictitious_charge, 1⟩,
          ⟨counter + 2, p - dipoleDisplacement cfg d, -cfg.fictitious_charge, 1⟩],
        storage ++ [(p, cfg.charge, cfg.radius),
          (p + dipoleDisplacement cfg d, cfg.fictitious_charge, 1),
          (p - dipoleDisplacement cfg d, -cfg.fictitious_charge, 1)]) := by
  have hmu := norm_dipoleMu cfg p hd hq hm
  simp only [makeDipoleEntry, makeAtomEntry]
  rw [if_pos hr, if_pos (by rw [hmu, sub_self, abs_zero]; norm_num)]
  simp [List.append_assoc]

lemma makeDipoleEntry_fail (cfg : Config) (counter : ℕ) (p d : Vec3)
    (storage : List StorageEntry) (hr : ¬ ‖dipoleDisplacement cfg d‖ < cfg.radius) :
    makeDipoleEntry cfg counter p d storage =
      (Except.error "increase fictitious_charge",
        storage ++ [(p, cfg.charge, cfg.radius)]) := by
  simp only [makeDipoleEntry, makeAtomEntry]
  rw [if_neg hr]

lemma monopoleLoop_eq (cfg : Config) (disp : Vec3) (n : ℕ) :
    ∀ (counter : ℕ) (pos : Vec3) (storage : List StorageEntry),
      monopoleLoop cfg disp n counter pos storage =
        ((List.range n).map fun (i : ℕ) =>
            (⟨counter + i, pos + (i : ℝ) • disp, cfg.charge, cfg.radius⟩ : AtomRecord),
          pos + (n : ℝ) • disp,
          storage ++ (List.range n).map fun (i : ℕ) =>
            ((pos + (i : ℝ) • disp, cfg.charge, cfg.radius) : StorageEntry)) := by
  induction n with
  | zero =>
    intro counter pos storage
    simp [monopoleLoop]
  | succ n ih =>
    intro counter pos storage
    rw [monopoleLoop]
    simp only [makeAtomEntry]
    rw [ih]
    have harec : ∀ i : ℕ,
        (⟨counter + 1 + i, pos + disp + (i : ℝ) • disp, cfg.charge, cfg.radius⟩ : AtomRecord) =
          ⟨counter + Nat.succ i, pos + ((Nat.succ i : ℕ) : ℝ) • disp, cfg.charge, cfg.radius⟩ := by
      intro i
      have h1 : counter + 1 + i = counter + Nat.succ i := by omega
      have h2 : pos + disp + (i : ℝ) • disp = pos + ((Nat.succ i : ℕ) : ℝ) • disp := by
        push_cast
        rw [add_smul, one_smul]
        abel
      rw [h1, h2]
    have hsrec : ∀ i : ℕ,
        ((pos + disp + (i : ℝ) • disp, cfg.charge, cfg.radius) : StorageEntry) =
          (pos + ((Nat.succ i : ℕ) : ℝ) • disp, cfg.charge, cfg.radius) := by
      intro i
      have h2 : pos + disp + (i : ℝ) • disp = pos + ((Nat.succ i : ℕ) : ℝ) • disp := by
        push_cast
        rw [add_smul, one_smul]
        abel
      rw [h2]
    rw [List.range_succ_eq_map]
    refine Prod.ext ?_ (Prod.ext ?_ ?_) <;> dsimp only
    · simp only [List.map_cons, List.map_map, Nat.cast_zero, zero_smul, add_zero,
        Nat.add_zero, List.cons.injEq]
      refine ⟨trivial, List.map_congr_left fun i _ => ?_⟩
      simp only [Function.comp_apply]
      exact harec i
    · push_cast
      rw [add_smul, one_smul]
      abel
    · rw [List.map_cons, List.map_map, List.append_assoc, List.singleton_append]
      refine congrArg (storage ++ ·) ?_
      simp only [List.map_map, Nat.cast_zero, zero_smul, add_zero, List.cons.injEq]
      refine ⟨trivial, List.map_congr_left fun i _ => ?_⟩
      simp only [Function.comp_apply]
      exact hsrec i

lemma dipoleLoop_eq (cfg : Config) {d : Vec3} (disp : Vec3)
    (hd : d ≠ 0) (hq : cfg.fictitious_charge ≠ 0) (hm : 0 ≤ cfg.dipole_scalar)
    (hr : ‖dipoleDisplacement cfg d‖ < cfg.radius) (n : ℕ) :
    ∀ (counter : ℕ) (pos : Vec3) (storage : List StorageEntry),
      dipoleLoop cfg d disp n counter pos storage =
        (Except.ok (((List.range n).map fun (i : ℕ) =>
            [(⟨counter + i, pos + (i : ℝ) • disp, cfg.charge, cfg.radius⟩ : AtomRecord),
             ⟨counter + i + 1, pos + (i : ℝ) • disp + dipoleDisplacement cfg d,
               cfg.fictitious_charge, 1⟩,
             ⟨counter + i + 2, pos + (i : ℝ) • disp - dipoleDisplacement cfg d,
               -cfg.fictitious_charge, 1⟩]).flatten),
          storage ++ ((List.range n).map fun (i : ℕ) =>
            [((pos + (i : ℝ) • disp, cfg.charge, cfg.radius) : StorageEntry),
             (pos + (i : ℝ) • disp + dipoleDisplacement cfg d, cfg.fictitious_charge, 1),
             (pos + (i : ℝ) • disp - dipoleDisplacement cfg d,
               -cfg.fictitious_charge, 1)]).flatten) := by
  induction n with
  | zero =>
    intro counter pos storage
    simp [dipoleLoop]
  | succ n ih =>
    intro counter pos storage
    rw [dipoleLoop]
    rw [makeDipoleEntry_ok cfg counter pos hd hq hm hr storage]
    dsimp only
    rw [ih]
    dsimp only
    have hp : ∀ i : ℕ,
        pos + disp + (i : ℝ) • disp = pos + ((Nat.succ i : ℕ) : ℝ) • disp := by
      intro i
      push_cast
      rw [add_smul, one_smul]
      abel
    rw [List.range_succ_eq_map]
    refine Prod.ext ?_ ?_ <;> dsimp only
    · refine congrArg Except.ok ?_
      rw [List.map_cons, List.map_map, List.flatten_cons]
      simp only [Nat.cast_zero, zero_smul, add_zero, Nat.add_zero]
      refine congrArg₂ (· ++ ·) rfl ?_
      refine congrArg List.flatten ?_
      refine List.map_congr_left fun i _ => ?_
      simp only [Function.comp_apply]
      have h1 : counter + 1 + i = counter + Nat.succ i := by omega
      rw [hp i, h1]
    · rw [List.map_cons, List.map_map, List.flatten_cons, List.append_assoc]
      refine congrArg (storage ++ ·) ?_
      simp only [Nat.cast_zero, zero_smul, add_zero]
      refine congrArg₂ (· ++ ·) rfl ?_
      refine congrArg List.flatten ?_
      refine List.map_congr_left fun i _ => ?_
      simp only [Function.comp_apply]
      rw [hp i]

lemma flatten_map_range_getElem {α : Type} (i : ℕ) :
    ∀ (n : ℕ) (t : ℕ → List α), (∀ j, (t j).length = 3) → i < n →
      (((List.range n).map t).flatten)[3 * i]? = (t i)[0]? := by
  induction i with
  | zero =>
    intro n t h3 hi
    obtain ⟨m, rfl⟩ : ∃ m, n = m + 1 := ⟨n - 1, by omega⟩
    rw [List.range_succ_eq_map, List.map_cons, List.flatten_cons]
    rw [List.getElem?_append, if_pos (by rw [h3]; omega)]
  | succ i ih =>
    intro n t h3 hi
    obtain ⟨m, rfl⟩ : ∃ m, n = m + 1 := ⟨n - 1, by omega⟩
    rw [List.range_succ_eq_map, List.map_cons, List.map_map, List.flatten_cons]
    rw [List.getElem?_append_right (by rw [h3]; omega), h3]
    have harith : 3 * (i + 1) - 3 = 3 * i := by omega
    rw [harith]
    have h := ih m (fun j => t (Nat.succ j)) (fun j => h3 (Nat.succ j)) (by omega)
    simpa [Function.comp_def] using h

lemma potential_foldl (target : Vec3) :
    ∀ (l : List StorageEntry) (a : ℝ),
      l.foldl (fun potential e => potential + e.2.1 / ‖target - e.1‖) a =
        a + (l.map fun e => e.2.1 / ‖target - e.1‖).sum := by
  intro l
  induction l with
  | nil =>
    intro a
    simp
  | cons x l ih =>
    intro a
    simp only [List.foldl_cons, List.map_cons, List.sum_cons]
    rw [ih]
    ring

lemma calcPotential_eq_map_sum (storage : List StorageEntry) (target : Vec3) :
    calcPotential storage target =
      bjerrum_length * (storage.map fun e => e.2.1 / ‖target - e.1‖).sum := by
  rw [calcPotential, potential_foldl, zero_add]

lemma sum_sq_components (x : Vec3) : x 0 ^ 2 + x 1 ^ 2 + x 2 ^ 2 = ‖x‖ ^ 2 := by
  rw [EuclideanSpace.norm_eq, Real.sq_sqrt (by positivity), Fin.sum_univ_three]
  simp [Real.norm_eq_abs, sq_abs]

lemma to_debye_pos : (0 : ℝ) < to_debye := by
  rw [to_debye]
  norm_num

lemma norm_unitSample {s : Vec3} (hs : s ≠ 0) : ‖unitSample s‖ = 1 := by
  have hts : (to_debye • s : Vec3) ≠ 0 :=
    smul_ne_zero (ne_of_gt to_debye_pos) hs
  exact norm_smul_inv_norm hts

lemma unitSample_single : unitSample (EuclideanSpace.single 2 (1 : ℝ)) =
    EuclideanSpace.single 2 (1 : ℝ) := by
  have hc := to_debye_pos
  rw [unitSample, norm_smul, Real.norm_eq_abs, abs_of_pos hc,
    EuclideanSpace.norm_single, norm_one, mul_one, smul_smul,
    inv_mul_cancel₀ (ne_of_gt hc), one_smul]

lemma list_sum_add3 (l : List Vec3) (f g h : Vec3 → ℝ) :
    (l.map f).sum + (l.map g).sum + (l.map h).sum =
      (l.map fun s => f s + g s + h s).sum := by
  induction l with
  | nil => simp
  | cons a l ih =>
    simp only [List.map_cons, List.sum_cons]
    rw [← ih]
    ring

lemma notebook_hr : ‖dipoleDisplacement notebookConfig (EuclideanSpace.single 0 1)‖ <
    notebookConfig.radius := by
  rw [norm_dipoleDisplacement notebookConfig (esingle_ne_zero 0)]
  rw [abs_of_nonneg (by norm_num [notebookConfig, debye_to_electron_angstrom] :
    (0 : ℝ) ≤ debye_to_electron_angstrom * notebookConfig.dipole_scalar /
      (2 * notebookConfig.fictitious_charge))]
  norm_num [notebookConfig, debye_to_electron_angstrom]

lemma weak_hr : ¬ ‖dipoleDisplacement weakConfig (EuclideanSpace.single 0 1)‖ <
    weakConfig.radius := by
  rw [norm_dipoleDisplacement weakConfig (esingle_ne_zero 0)]
  rw [abs_of_nonneg (by norm_num [weakConfig, debye_to_electron_angstrom] :
    (0 : ℝ) ≤ debye_to_electron_angstrom * weakConfig.dipole_scalar /
      (2 * weakConfig.fictitious_charge))]
  norm_num [weakConfig, debye_to_electron_angstrom]

/-! ### Claims -/

/-- Claim C1: for every valid dipole bead construction (auxiliary displacement norm
strictly below the bead radius, non-zero direction, positive fictitious charge) and
every requested dipole magnitude, the dipole reconstructed from the two auxiliary
charges about the bead center — `(position + displacement) * fictitious_charge +
(position - displacement) * (-fictitious_charge)` — has norm exactly
`dipole_scalar * 0.2081943`, hence in particular within relative error `1e-9`,
for arbitrary bead position and direction. -/
theorem C1_dipole_moment_recovers_magnitude (cfg : Config) (position : Vec3)
    {direction : Vec3} (hd : direction ≠ 0) (hq : 0 < cfg.fictitious_charge)
    (hm : 0 ≤ cfg.dipole_scalar)
    (hr : ‖dipoleDisplacement cfg direction‖ < cfg.radius) :
    ‖dipoleMu cfg position (dipoleDisplacement cfg direction)‖ =
        cfg.dipole_scalar * debye_to_electron_angstrom ∧
      |‖dipoleMu cfg position (dipoleDisplacement cfg direction)‖ -
          cfg.dipole_scalar * debye_to_electron_angstrom| ≤
        1e-9 * |cfg.dipole_scalar * debye_to_electron_angstrom| := by
  have h := norm_dipoleMu cfg position hd (ne_of_gt hq) hm
  refine ⟨h, ?_⟩
  rw [h, sub_self, abs_zero]
  positivity

/-- Witness for C1 at the notebook's own parameters, with the bead at the origin and
the dipole along the x axis. -/
theorem C1_witness :
    ‖dipoleMu notebookConfig 0 (dipoleDisplacement notebookConfig
        (EuclideanSpace.single 0 1))‖ =
      notebookConfig.dipole_scalar * debye_to_electron_angstrom :=
  (C1_dipole_moment_recovers_magnitude notebookConfig 0 (esingle_ne_zero 0)
    (by norm_num [notebookConfig]) (by norm_num [notebookConfig]) notebook_hr).1

/-- Claim C2 counterexample: with `fictitious_charge = 0.1` the displacement length
`0.2081943 * 150 / 0.2 ≈ 156.1` exceeds the radius 15 and the construction fails, but
the neutral bead's record has already been appended to the global position storage —
refuting the claim that the failure occurs before any record is emitted or stored. -/
theorem C2_counterexample :
    (makeDipoleEntry weakConfig 1 0 (EuclideanSpace.single 0 1) []).1 =
        Except.error "increase fictitious_charge" ∧
      (makeDipoleEntry weakConfig 1 0 (EuclideanSpace.single 0 1) []).2 =
        [((0 : Vec3), 2, 15)] ∧
      ¬ (makeDipoleEntry weakConfig 1 0 (EuclideanSpace.single 0 1) []).2 = [] := by
  rw [makeDipoleEntry_fail weakConfig 1 0 (EuclideanSpace.single 0 1) [] weak_hr]
  exact ⟨rfl, by simp [weakConfig], by simp⟩

/-- Claim C2 (amended): when the computed auxiliary displacement norm is not strictly
less than the bead radius, the dipole bead constructor fails with the assertion error
`increase fictitious_charge`, but only after the neutral bead's record has been emitted
and its entry appended to the global position storage; the two auxiliary charge
records are not produced. -/
theorem C2_amended_fails_after_neutral_record (cfg : Config) (counter : ℕ)
    (position dipole_direction : Vec3) (storage : List StorageEntry)
    (hr : ¬ ‖dipoleDisplacement cfg dipole_direction‖ < cfg.radius) :
    (makeDipoleEntry cfg counter position dipole_direction storage).1 =
        Except.error "increase fictitious_charge" ∧
      (makeDipoleEntry cfg counter position dipole_direction storage).2 =
        storage ++ [(position, cfg.charge, cfg.radius)] := by
  rw [makeDipoleEntry_fail cfg counter position dipole_direction storage hr]
  exact ⟨rfl, rfl⟩

/-- Witness for the amended C2 at the too-small fictitious charge of `weakConfig`. -/
theorem C2_witness :
    (makeDipoleEntry weakConfig 2 0 (EuclideanSpace.single 0 1) []).1 =
        Except.error "increase fictitious_charge" ∧
      (makeDipoleEntry weakConfig 2 0 (EuclideanSpace.single 0 1) []).2 =
        [] ++ [((0 : Vec3), weakConfig.charge, weakConfig.radius)] :=
  C2_amended_fails_after_neutral_record weakConfig 2 0 (EuclideanSpace.single 0 1) []
    weak_hr

/-- Claim C3 (code bug): `calcPotential` has no coincidence guard.  When the target
equals a stored charge position the code reaches the `point_charge / distance`
division with `distance = 0` and returns normally instead of failing: in IEEE
arithmetic the numpy division yields infinity with only a runtime warning, exactly
the silent infinity the claim forbids.  The theorem evaluates the embedded code at
the failing input (a single charge 2 at the origin, target the origin): the distance
is zero and the returned value is the Bjerrum length times the division by that zero
distance (the exact embedding's junk value for division by zero). -/
theorem C3_no_singularity_guard :
    ‖(0 : Vec3) - (0 : Vec3)‖ = 0 ∧
      calcPotential [((0 : Vec3), 2, 15)] 0 =
        bjerrum_length * (2 / ‖(0 : Vec3) - (0 : Vec3)‖) := by
  refine ⟨by simp, ?_⟩
  rw [calcPotential_eq_map_sum]
  simp

/-- Claim C4: for a target at non-zero distance from every charge, `calcPotential`
returns the sum over charges of `bjerrum_length * charge / |target - position|`;
the empty collection gives 0; `bjerrum_length = 7 * 80 = 560`; and a single unit
positive charge at distance `d` gives `bjerrum_length / d`. -/
theorem C4_calcPotential_sum (storage : List StorageEntry) (target : Vec3)
    (hdist : ∀ e ∈ storage, ‖target - e.1‖ ≠ 0) :
    calcPotential storage target =
        (storage.map fun e => bjerrum_length * e.2.1 / ‖target - e.1‖).sum ∧
      calcPotential [] target = 0 ∧
      bjerrum_length = 560 ∧
      ∀ (pos : Vec3) (radius d : ℝ), ‖target - pos‖ = d → d ≠ 0 →
        calcPotential [(pos, 1, radius)] target = bjerrum_length / d := by
  refine ⟨?_, ?_, ?_, ?_⟩
  · rw [calcPotential_eq_map_sum, ← List.sum_map_mul_left]
    exact congrArg List.sum (List.map_congr_left fun e he => (mul_div_assoc _ _ _).symm)
  · simp [calcPotential]
  · rw [bjerrum_length]
    norm_num
  · intro pos radius d hdeq hd0
    rw [calcPotential_eq_map_sum]
    simp only [List.map_cons, List.map_nil, List.sum_cons, List.sum_nil, add_zero]
    rw [hdeq, mul_one_div]

/-- Witness for C4: a single unit charge on the x axis, target at the origin. -/
theorem C4_witness :
    calcPotential [((EuclideanSpace.single 0 1 : Vec3), 1, 1)] 0 =
      (([((EuclideanSpace.single 0 1 : Vec3), 1, 1)] : List StorageEntry).map fun e =>
        bjerrum_length * e.2.1 / ‖(0 : Vec3) - e.1‖).sum :=
  (C4_calcPotential_sum [((EuclideanSpace.single 0 1 : Vec3), 1, 1)] 0
    (by
      intro e he
      rw [List.mem_singleton] at he
      subst he
      simp)).1

/-- Claim C5 counterexample: at the notebook's own parameters the dipole bead
constructor does mutate global state — starting from an empty global position
storage, the storage is non-empty after the call. -/
theorem C5_counterexample :
    (makeDipoleEntry notebookConfig 1 0 (EuclideanSpace.single 0 1) []).2 ≠ [] := by
  rw [makeDipoleEntry_ok notebookConfig 1 0 (esingle_ne_zero 0)
    (by norm_num [notebookConfig]) (by norm_num [notebookConfig]) notebook_hr []]
  simp

/-- Claim C5 (amended): the dipole bead constructor mutates global state in exactly
one way: when the displacement check passes it appends the three emitted records'
`(position, charge, radius)` entries to `global_position_storage`, in emission order;
there is no other side effect beyond the returned records. -/
theorem C5_amended_storage_append (cfg : Config) (counter : ℕ)
    (position dipole_direction : Vec3) (storage : List StorageEntry)
    (hr : ‖dipoleDisplacement cfg dipole_direction‖ < cfg.radius) :
    (makeDipoleEntry cfg counter position dipole_direction storage).2 =
      storage ++ [(position, cfg.charge, cfg.radius),
        (position + dipoleDisplacement cfg dipole_direction, cfg.fictitious_charge, 1),
        (position - dipoleDisplacement cfg dipole_direction,
          -cfg.fictitious_charge, 1)] := by
  simp only [makeDipoleEntry, makeAtomEntry]
  rw [if_pos hr]
  split <;> simp [List.append_assoc]

/-- Witness for the amended C5 at the notebook's parameters. -/
theorem C5_witness :
    (makeDipoleEntry notebookConfig 1 0 (EuclideanSpace.single 0 1) []).2 =
      [] ++ [((0 : Vec3), notebookConfig.charge, notebookConfig.radius),
        ((0 : Vec3) + dipoleDisplacement notebookConfig (EuclideanSpace.single 0 1),
          notebookConfig.fictitious_charge, 1),
        ((0 : Vec3) - dipoleDisplacement notebookConfig (EuclideanSpace.single 0 1),
          -notebookConfig.fictitious_charge, 1)] :=
  C5_amended_storage_append notebookConfig 1 0 (EuclideanSpace.single 0 1) []
    notebook_hr

lemma length_flatten_triples {α : Type} (n : ℕ) (t : ℕ → List α)
    (h3 : ∀ j, (t j).length = 3) : (((List.range n).map t).flatten).length = 3 * n := by
  induction n with
  | zero => simp
  | succ n ih =>
    rw [List.range_succ, List.map_append, List.flatten_append, List.length_append, ih]
    simp [h3]
    omega

lemma list_sum_const (l : List Vec3) (c : ℝ) :
    (l.map fun _ => c).sum = l.length * c := by
  induction l with
  | nil => simp
  | cons a l ih =>
    simp only [List.map_cons, List.sum_cons, List.length_cons, ih]
    push_cast
    ring

/-- Claim C6 (code bug): in dipole mode the numbering of generated records is NOT
sequential.  `makeDipoleFibril` advances the per-bead counter by 1 while each call to
`makeDipoleEntry` emits three records with indices `counter, counter + 1, counter + 2`,
so with `n = 2` the emitted indices are `1, 2, 3, 2, 3, 4`: the fourth record's index
(2) is not one greater than the third's (3), and indices repeat across beads. -/
theorem C6_dipole_indices_not_sequential :
    Except.map (List.map AtomRecord.index)
        (makeDipoleFibril notebookConfig 2 0 (EuclideanSpace.single 0 1) []).1 =
      Except.ok [1, 2, 3, 2, 3, 4] := by
  rw [makeDipoleFibril]
  rw [dipoleLoop_eq notebookConfig (fibrilDisplacement notebookConfig
      (EuclideanSpace.single 0 1)) (esingle_ne_zero 0)
    (by norm_num [notebookConfig]) (by norm_num [notebookConfig]) notebook_hr 2 1 0 []]
  dsimp only
  simp [List.range_succ, Except.map]

/-- Claim C7: both fibril builders return an empty record sequence for `n = 0` without
error; for `n` beads the monopole builder emits exactly `n` records and the dipole
builder exactly `3 * n`; and consecutive bead centers (every record in monopole mode,
every third record in dipole mode) are separated by exactly
`(2 * radius) • normalize direction`. -/
theorem C7_fibril_counts_and_spacing (cfg : Config) (n : ℕ) (initial : Vec3)
    {direction : Vec3} (storage : List StorageEntry)
    (hd : direction ≠ 0) (hq : 0 < cfg.fictitious_charge) (hm : 0 ≤ cfg.dipole_scalar)
    (hr : ‖dipoleDisplacement cfg direction‖ < cfg.radius) :
    (makeMonopoleFibril cfg 0 initial direction storage).1 = [] ∧
      (makeDipoleFibril cfg 0 initial direction storage).1 = Except.ok [] ∧
      (makeMonopoleFibril cfg n initial direction storage).1.length = n ∧
      (∃ recs, (makeDipoleFibril cfg n initial direction storage).1 = Except.ok recs ∧
        recs.length = 3 * n) ∧
      (∀ i : ℕ, ∀ r r' : AtomRecord,
        ((makeMonopoleFibril cfg n initial direction storage).1)[i]? = some r →
        ((makeMonopoleFibril cfg n initial direction storage).1)[i + 1]? = some r' →
        r'.pos - r.pos = (2 * cfg.radius) • normalize direction) ∧
      (∀ recs, (makeDipoleFibril cfg n initial direction storage).1 = Except.ok recs →
        ∀ i : ℕ, i + 1 < n → ∃ r r' : AtomRecord, recs[3 * i]? = some r ∧
          recs[3 * (i + 1)]? = some r' ∧
          r'.pos - r.pos = (2 * cfg.radius) • normalize direction) := by
  have hq' := ne_of_gt hq
  have hmono := monopoleLoop_eq cfg (fibrilDisplacement cfg direction) n 1 initial storage
  have hdip := dipoleLoop_eq cfg (fibrilDisplacement cfg direction) hd hq' hm hr n
    1 initial storage
  have hdisp := fibrilDisplacement_eq cfg direction
  refine ⟨rfl, rfl, ?_, ?_, ?_, ?_⟩
  · rw [makeMonopoleFibril, hmono]
    dsimp only
    rw [List.length_map, List.length_range]
  · rw [makeDipoleFibril, hdip]
    dsimp only
    refine ⟨_, rfl, ?_⟩
    exact length_flatten_triples n _ fun j => rfl
  · intro i r r' h1 h2
    rw [makeMonopoleFibril, hmono] at h1 h2
    dsimp only at h1 h2
    rw [List.getElem?_map] at h1 h2
    rw [Option.map_eq_some'] at h1 h2
    obtain ⟨a, ha, hfa⟩ := h1
    obtain ⟨b, hb, hfb⟩ := h2
    have hbn : i + 1 < n := by
      have := (List.getElem?_eq_some.mp hb).1
      rwa [List.length_range] at this
    rw [List.getElem?_range (by omega), Option.some_inj] at ha
    rw [List.getElem?_range hbn, Option.some_inj] at hb
    subst ha hb
    rw [← hfa, ← hfb]
    dsimp only
    rw [hdisp]
    push_cast
    rw [add_smul, one_smul]
    abel
  · intro recs hrecs i hin
    rw [makeDipoleFibril, hdip] at hrecs
    dsimp only at hrecs
    injection hrecs with h
    subst h
    have h3 : ∀ j : ℕ, ([(⟨1 + j, initial + (j : ℝ) • fibrilDisplacement cfg direction,
          cfg.charge, cfg.radius⟩ : AtomRecord),
        ⟨1 + j + 1, initial + (j : ℝ) • fibrilDisplacement cfg direction +
          dipoleDisplacement cfg direction, cfg.fictitious_charge, 1⟩,
        ⟨1 + j + 2, initial + (j : ℝ) • fibrilDisplacement cfg direction -
          dipoleDisplacement cfg direction,
          -cfg.fictitious_charge, 1⟩]).length = 3 := fun j => rfl
    refine ⟨⟨1 + i, initial + (i : ℝ) • fibrilDisplacement cfg direction,
        cfg.charge, cfg.radius⟩,
      ⟨1 + (i + 1), initial + ((i + 1 : ℕ) : ℝ) • fibrilDisplacement cfg direction,
        cfg.charge, cfg.radius⟩, ?_, ?_, ?_⟩
    · rw [flatten_map_range_getElem i n _ h3 (by omega)]
      rfl
    · rw [flatten_map_range_getElem (i + 1) n _ h3 (by omega)]
      rfl
    · dsimp only
      rw [hdisp]
      push_cast
      rw [add_smul, one_smul]
      abel

/-- Witness for C7 at the notebook's parameters, `n = 2`, fibril along the x axis. -/
theorem C7_witness :
    (makeMonopoleFibril notebookConfig 0 0 (EuclideanSpace.single 0 1) []).1 = [] ∧
      (makeDipoleFibril notebookConfig 0 0 (EuclideanSpace.single 0 1) []).1 =
        Except.ok [] ∧
      (makeMonopoleFibril notebookConfig 2 0 (EuclideanSpace.single 0 1) []).1.length =
        2 ∧
      (∃ recs, (makeDipoleFibril notebookConfig 2 0
          (EuclideanSpace.single 0 1) []).1 = Except.ok recs ∧ recs.length = 3 * 2) ∧
      (∀ i : ℕ, ∀ r r' : AtomRecord,
        ((makeMonopoleFibril notebookConfig 2 0
          (EuclideanSpace.single 0 1) []).1)[i]? = some r →
        ((makeMonopoleFibril notebookConfig 2 0
          (EuclideanSpace.single 0 1) []).1)[i + 1]? = some r' →
        r'.pos - r.pos = (2 * notebookConfig.radius) •
          normalize (EuclideanSpace.single 0 1)) ∧
      (∀ recs, (makeDipoleFibril notebookConfig 2 0
          (EuclideanSpace.single 0 1) []).1 = Except.ok recs →
        ∀ i : ℕ, i + 1 < 2 → ∃ r r' : AtomRecord, recs[3 * i]? = some r ∧
          recs[3 * (i + 1)]? = some r' ∧
          r'.pos - r.pos = (2 * notebookConfig.radius) •
            normalize (EuclideanSpace.single 0 1)) :=
  C7_fibril_counts_and_spacing notebookConfig 2 0 [] (esingle_ne_zero 0)
    (by norm_num [notebookConfig]) (by norm_num [notebookConfig]) notebook_hr

/-- Claim C8: on a non-empty series of non-zero samples, the alignment reduction
(normalize each sample to a unit vector, then average the squared components per axis)
returns a 3-vector whose entries sum to 1; on a series where every sample is exactly
`(0, 0, 1)` it returns `(0, 0, 1)`. -/
theorem C8_alignment_sums_to_one (samples : List Vec3) (hne : samples ≠ []) :
    ((∀ s ∈ samples, s ≠ 0) →
      systemDipoleAlignment samples 0 + systemDipoleAlignment samples 1 +
        systemDipoleAlignment samples 2 = 1) ∧
    ((∀ s ∈ samples, s = EuclideanSpace.single 2 1) →
      systemDipoleAlignment samples 0 = 0 ∧ systemDipoleAlignment samples 1 = 0 ∧
        systemDipoleAlignment samples 2 = 1) := by
  have hlen : (0 : ℝ) < samples.length := by
    exact_mod_cast List.length_pos.mpr hne
  constructor
  · intro hnz
    simp only [systemDipoleAlignment]
    rw [div_add_div_same, div_add_div_same, list_sum_add3]
    rw [List.map_congr_left fun s hs => ?_, list_sum_const, mul_one,
      div_self (ne_of_gt hlen)]
    rw [sum_sq_components, norm_unitSample (hnz s hs), one_pow]
  · intro hall
    refine ⟨?_, ?_, ?_⟩ <;> simp only [systemDipoleAlignment]
    · rw [List.map_congr_left fun s hs => ?_, list_sum_const, mul_zero, zero_div]
      rw [hall s hs, unitSample_single, EuclideanSpace.single_apply,
        if_neg (by decide)]
      norm_num
    · rw [List.map_congr_left fun s hs => ?_, list_sum_const, mul_zero, zero_div]
      rw [hall s hs, unitSample_single, EuclideanSpace.single_apply,
        if_neg (by decide)]
      norm_num
    · rw [List.map_congr_left fun s hs => ?_, list_sum_const, mul_one,
        div_self (ne_of_gt hlen)]
      rw [hall s hs, unitSample_single, EuclideanSpace.single_apply, if_pos rfl]
      norm_num

/-- Witness for C8 on the one-sample series `[(0, 0, 1)]`. -/
theorem C8_witness :
    systemDipoleAlignment [EuclideanSpace.single 2 1] 0 +
        systemDipoleAlignment [EuclideanSpace.single 2 1] 1 +
        systemDipoleAlignment [EuclideanSpace.single 2 1] 2 = 1 :=
  (C8_alignment_sums_to_one [EuclideanSpace.single 2 1] (by simp)).1
    (by
      intro s hs
      rw [List.mem_singleton] at hs
      subst hs
      exact esingle_ne_zero 2)

/-- Claim C10: `makeMonopoleFibril` writes through the caller-supplied
`initial_position` (`position = initial_position[:]` creates a numpy view and
`position += displacement` advances it in place): after a call with `n` beads the
caller's array has been advanced by `n * 2 * radius` along the normalized direction.
`makeDipoleFibril` deep-copies the argument and leaves the caller's array unchanged. -/
theorem C10_monopole_view_dipole_copy (cfg : Config) (n : ℕ)
    (initial_position direction : Vec3) (storage : List StorageEntry) :
    monopoleCallerPositionAfter cfg n initial_position direction storage =
        initial_position + ((n : ℝ) * (2 * cfg.radius)) • normalize direction ∧
      dipoleCallerPositionAfter initial_position = initial_position := by
  refine ⟨?_, rfl⟩
  rw [monopoleCallerPositionAfter, makeMonopoleFibril,
    monopoleLoop_eq cfg (fibrilDisplacement cfg direction) n 1 initial_position storage]
  dsimp only
  rw [fibrilDisplacement_eq, smul_smul]

end DipolarFibrils
